import Mathlib

/-!
# Verification of the `qp` length-prefixed message framing codec

A shallow embedding of `container.go` from the `qp` repository: a codec that
frames typed protocol messages as `[total_size : u32 LE][type_id : u8][body]`.

Modelling choices:
* A byte stream (`io.Reader`) is a `List Nat` of the bytes the stream will
  deliver, in order; each model read returns what was read and the remaining
  stream.  Genuine byte-ness (`< 256`) is a hypothesis where a theorem needs it.
* An `io.Writer` is a strategy: given the call index and the offered bytes it
  answers how many bytes it accepted and an optional error, exactly the
  `(n, err)` pair of Go's `Write`.  The bytes a writer has received are
  accumulated in an `out` list.
* Go multiple-value returns `(x, err)` become tuples with an `Option Err`
  component; `nil` pointers/errors are `none`.
* `uint32` arithmetic is `Nat` arithmetic mod `2^32`, made explicit at the one
  place the source does unsigned subtraction (`size -= HeaderSize`).
* The message interface (`MarshalBinary` / `UnmarshalBinary`) and the registry
  functions `M2MT` / `MT2M` are parameters, as in the source, where `Codec`
  holds the two registry closures and messages carry their own (un)marshalling.
* Loops (the `write` loop) are given fuel; `none` means the loop is still
  running after that many iterations, so "for every fuel the result is `none`"
  is non-termination of the model.
-/

namespace Qp

/-- Errors surfaced by the codec.  `eof` and `unexpectedEOF` are `io.EOF` and
`io.ErrUnexpectedEOF` as produced by `io.ReadFull`; `shortRead` is the literal
`errors.New("short read")` of `Codec.Decode`; `unknownMessageType` and
`decodeError` stand for the errors a registry / unmarshaller returns. -/
inductive Err where
  | eof
  | unexpectedEOF
  | shortRead
  | unknownMessageType
  | decodeError
deriving DecidableEq, Repr

/-- The spec's `ShortRead` taxonomy entry: fewer bytes available than needed,
either the propagated I/O incompleteness errors of `io.ReadFull` or the
codec's own explicit short-read error (spec §7). -/
def Err.isShortRead : Err → Bool
  | .eof => true
  | .unexpectedEOF => true
  | .shortRead => true
  | _ => false

/-- Modelled from the spec: the constant `HeaderSize` is referenced by
`container.go` but defined in a repository file outside `src/`; the spec's
wire format fixes the header at 5 bytes (`total_size = 5 + body_length`,
bytes 0..3 size, byte 4 type). -/
def HeaderSize : Nat := 5

/-- `2^32`, the modulus of Go's `uint32` arithmetic. -/
def U32Mod : Nat := 4294967296

/-- `binary.LittleEndian.Uint32(b[0:4])`:
`uint32(b[0]) | uint32(b[1])<<8 | uint32(b[2])<<16 | uint32(b[3])<<24`. -/
def leUint32 (b : List Nat) : Nat :=
  b.getD 0 0 ||| (b.getD 1 0 <<< 8) ||| (b.getD 2 0 <<< 16) ||| (b.getD 3 0 <<< 24)

/-- `binary.LittleEndian.PutUint32`: the four little-endian bytes of `v`. -/
def putUint32LE (v : Nat) : List Nat :=
  [v % 256, (v >>> 8) % 256, (v >>> 16) % 256, (v >>> 24) % 256]

/-- `io.ReadFull(r, buf)` with `len(buf) = k` on a stream `s`:
returns `(bytes read, n, err, remaining stream)`.  `io.ReadFull` returns
`err = nil` iff `n = k`; `io.EOF` if nothing could be read, and
`io.ErrUnexpectedEOF` after a partial read. -/
def readFull (s : List Nat) (k : Nat) : List Nat × Nat × Option Err × List Nat :=
  if k ≤ s.length then (s.take k, k, none, s.drop k)
  else if s.length = 0 then ([], 0, some .eof, [])
  else (s, s.length, some .unexpectedEOF, [])

/-- `DecodeHdr`: read 5 bytes, return `(size, message type, err, remaining
stream)`.  The source returns `(0, 0, err)` whenever fewer than 5 bytes were
read, and otherwise the little-endian size of bytes 0..3 and byte 4. -/
def DecodeHdr (s : List Nat) : Nat × Nat × Option Err × List Nat :=
  match readFull s 5 with
  | (b, n, err, rest) =>
    if n < 5 then (0, 0, err, rest)
    else (leUint32 b, b.getD 4 0, err, rest)

/-- The `Codec` struct: the two registry closures, message value → wire type
(`M2MT`) and wire type → fresh empty message (`MT2M`). -/
structure Codec (Msg : Type) where
  M2MT : Msg → Except Err Nat
  MT2M : Nat → Except Err Msg

/-- The tail of `Codec.Decode` (source lines 105-113): resolve the message
type via `MT2M`, then `m.UnmarshalBinary(b)`; `unmarshal m b` models the
latter, returning the populated message.  `s2` is the stream as left after
the body read. -/
def decodeResolve {Msg : Type} (c : Codec Msg)
    (unmarshal : Msg → List Nat → Except Err Msg) (mt : Nat) (b : List Nat)
    (s2 : List Nat) : Option Msg × Option Err × List Nat :=
  match c.MT2M mt with
  | .error e => (none, some e, s2)
  | .ok m =>
    match unmarshal m b with
    | .error e => (none, some e, s2)
    | .ok m2 => (some m2, none, s2)

/-- The middle of `Codec.Decode` (source lines 96-103): read `size2` body
bytes with `io.ReadFull` (`size2` is the already-wrapped `size - HeaderSize`),
fail on a read error or a short count, else continue with type resolution. -/
def decodeBody {Msg : Type} (c : Codec Msg)
    (unmarshal : Msg → List Nat → Except Err Msg) (size2 mt : Nat)
    (s1 : List Nat) : Option Msg × Option Err × List Nat :=
  let rB := readFull s1 size2
  match rB.2.2.1 with
  | some e => (none, some e, rB.2.2.2)
  | none =>
    if rB.2.1 ≠ size2 then (none, some .shortRead, rB.2.2.2)
    else decodeResolve c unmarshal mt rB.1 rB.2.2.2

/-- `Codec.Decode` (source lines 84-114): decode the header, fail on a
header error, else subtract `HeaderSize` from the declared size — the
source's `size -= HeaderSize` is unsigned `uint32` arithmetic with no guard
against `size < HeaderSize`, so the subtraction wraps modulo `2^32` — and
process the body.  Result is `(message, err, remaining stream)`. -/
def Codec.Decode {Msg : Type} (c : Codec Msg)
    (unmarshal : Msg → List Nat → Except Err Msg) (s : List Nat) :
    Option Msg × Option Err × List Nat :=
  let rH := DecodeHdr s
  match rH.2.2.1 with
  | some e => (none, some e, rH.2.2.2)
  | none =>
    decodeBody c unmarshal ((rH.1 + (U32Mod - HeaderSize)) % U32Mod) rH.2.1
      rH.2.2.2

/-- An `io.Writer`: `step callIndex offeredBytes = (acceptedCount, err)`.
The accepted count is clamped to the offered length (Go's `Write` contract
`0 <= n <= len(p)`). -/
structure Writer where
  step : Nat → List Nat → Nat × Option Err

/-- The `write` helper of `container.go`:

```
for written < l {
    written, err = w.Write(b[written:])
    if err != nil { return err }
}
```

Note the loop ASSIGNS `written` from the latest call's return instead of
accumulating it; this model reproduces that.  Arguments after the data:
fuel, call index, `written`, bytes received by the writer so far.  Returns
`none` while still looping, otherwise `some (err, next call index, bytes the
writer received)`. -/
def writeGo (wr : Writer) (b : List Nat) :
    Nat → Nat → Nat → List Nat → Option (Option Err × Nat × List Nat)
  | 0, _, _, _ => none
  | fuel + 1, k, written, out =>
    if written < b.length then
      let offered := b.drop written
      let r := wr.step k offered
      let n := min r.1 offered.length
      let got := offered.take n
      match r.2 with
      | some e => some (some e, k + 1, out ++ got)
      | none => writeGo wr b fuel (k + 1) n (out ++ got)
    else some (none, k, out)

/-- The write portion of `Codec.Encode` (source lines 134-142): `write` the
header `h`, return its error if any, then `write` the body `b`.  Returns
`none` while a write loop is still running, otherwise
`some (err, call count, bytes the writer received)`. -/
def encodeWrites (wr : Writer) (h b : List Nat) (fuel : Nat) :
    Option (Option Err × Nat × List Nat) :=
  match writeGo wr h fuel 0 0 [] with
  | none => none
  | some (some e, k, out) => some (some e, k, out)
  | some (none, k, out) =>
    match writeGo wr b fuel k 0 out with
    | none => none
    | some (e2, k2, out2) => some (e2, k2, out2)

/-- `Codec.Encode` (source lines 118-143): resolve the type via `M2MT`,
marshal the body, build the 5-byte header (`PutUint32(len(b)+HeaderSize)`
then the type byte), and write the header then the body. -/
def Codec.Encode {Msg : Type} (c : Codec Msg)
    (marshal : Msg → Except Err (List Nat)) (wr : Writer) (m : Msg)
    (fuel : Nat) : Option (Option Err × Nat × List Nat) :=
  match c.M2MT m with
  | .error e => some (some e, 0, [])
  | .ok mt =>
    match marshal m with
    | .error e => some (some e, 0, [])
    | .ok b =>
      encodeWrites wr (putUint32LE ((b.length + HeaderSize) % U32Mod) ++ [mt % 256])
        b fuel

/-- A writer that accepts every write in full with no error (e.g. an
in-memory buffer). -/
def fullWriter : Writer := ⟨fun _ offered => (offered.length, none)⟩

/-- A writer that accepts exactly one byte per call and never errors: a
legitimate partial-write transport. -/
def oneByteWriter : Writer := ⟨fun _ _ => (1, none)⟩

/-- A concrete message type for witnesses: a message is its own body bytes. -/
def listCodec : Codec (List Nat) :=
  ⟨fun _ => .ok 1,
   fun t => if t = 1 then .ok [] else .error .unknownMessageType⟩

/-- `MarshalBinary` for the witness message type: the body is the message. -/
def listMarshal : List Nat → Except Err (List Nat) := fun m => .ok m

/-- `UnmarshalBinary` for the witness message type: populate from the body. -/
def listUnmarshal : List Nat → List Nat → Except Err (List Nat) :=
  fun _ b => .ok b

/-- A registry whose `M2MT` rejects every message. -/
def rejectCodec : Codec (List Nat) :=
  ⟨fun _ => .error .unknownMessageType,
   fun _ => .error .unknownMessageType⟩

/-- A `MarshalBinary` that always fails. -/
def failMarshal : List Nat → Except Err (List Nat) :=
  fun _ => .error .decodeError

/-! ## Arithmetic facts about the little-endian 32-bit codec -/

/-- Bitwise-or with a shifted value is addition when the low bits are free. -/
theorem lor_shift_eq_add {a m k : Nat} (h : a < 2 ^ k) :
    a ||| (m <<< k) = a + m * 2 ^ k := by
  rw [Nat.shiftLeft_eq, Nat.lor_comm, Nat.mul_comm m (2 ^ k),
    ← Nat.mul_add_lt_is_or h m]
  omega

/-- `leUint32` on an explicit byte list is the arithmetic little-endian value. -/
theorem leUint32_eval {b0 b1 b2 b3 : Nat} (rest : List Nat)
    (h0 : b0 < 256) (h1 : b1 < 256) (h2 : b2 < 256) (h3 : b3 < 256) :
    leUint32 (b0 :: b1 :: b2 :: b3 :: rest) =
      b0 + 256 * b1 + 65536 * b2 + 16777216 * b3 := by
  have e1 : b0 ||| (b1 <<< 8) = b0 + b1 * 2 ^ 8 :=
    lor_shift_eq_add (by norm_num; omega)
  have e2 : (b0 + b1 * 2 ^ 8) ||| (b2 <<< 16) = (b0 + b1 * 2 ^ 8) + b2 * 2 ^ 16 :=
    lor_shift_eq_add (by norm_num; omega)
  have e3 : ((b0 + b1 * 2 ^ 8) + b2 * 2 ^ 16) ||| (b3 <<< 24)
      = ((b0 + b1 * 2 ^ 8) + b2 * 2 ^ 16) + b3 * 2 ^ 24 :=
    lor_shift_eq_add (by norm_num; omega)
  unfold leUint32
  simp only [List.getD_cons_zero, List.getD_cons_succ]
  rw [e1, e2, e3]
  norm_num
  omega

/-- The little-endian bytes of `v < 2^32` decode back to `v`, whatever follows. -/
theorem leUint32_putUint32LE {v : Nat} (hv : v < U32Mod) (rest : List Nat) :
    leUint32 (putUint32LE v ++ rest) = v := by
  have hm : ∀ x : Nat, x % 256 < 256 := fun x => Nat.mod_lt _ (by norm_num)
  unfold putUint32LE
  rw [List.cons_append, List.cons_append, List.cons_append, List.cons_append,
    List.nil_append,
    leUint32_eval rest (hm v) (hm _) (hm _) (hm _)]
  have d8 : v >>> 8 = v / 256 := by rw [Nat.shiftRight_eq_div_pow]
  have d16 : v >>> 16 = v / 65536 := by rw [Nat.shiftRight_eq_div_pow]
  have d24 : v >>> 24 = v / 16777216 := by rw [Nat.shiftRight_eq_div_pow]
  rw [d8, d16, d24]
  unfold U32Mod at hv
  omega

/-! ## Stream lemmas -/

/-- Reading exactly the length of a leading segment returns that segment. -/
theorem readFull_exact {s : List Nat} (rest : List Nat) {k : Nat}
    (h : s.length = k) :
    readFull (s ++ rest) k = (s, k, none, rest) := by
  unfold readFull
  rw [if_pos (by simp; omega), List.take_left' h, List.drop_left' h]

/-- Reading from a stream with too few bytes fails with `eof` or
`unexpectedEOF`. -/
theorem readFull_short {s : List Nat} {k : Nat} (h : s.length < k) :
    readFull s k =
      if s.length = 0 then ([], 0, some .eof, [])
      else (s, s.length, some .unexpectedEOF, []) := by
  unfold readFull
  rw [if_neg (by omega)]

/-- Decoding the header of a stream with a 5-byte leading segment. -/
theorem DecodeHdr_exact {hdr : List Nat} (rest : List Nat)
    (h : hdr.length = 5) :
    DecodeHdr (hdr ++ rest) = (leUint32 hdr, hdr.getD 4 0, none, rest) := by
  unfold DecodeHdr
  rw [readFull_exact rest h]
  simp

/-- Decoding the header of a stream with fewer than 5 bytes yields a
short-read error and an exhausted stream. -/
theorem DecodeHdr_short {s : List Nat} (h : s.length < 5) :
    ∃ e : Err, e.isShortRead = true ∧ DecodeHdr s = (0, 0, some e, []) := by
  unfold DecodeHdr
  rw [readFull_short h]
  by_cases hz : s.length = 0
  · exact ⟨.eof, rfl, by rw [if_pos hz]; simp⟩
  · exact ⟨.unexpectedEOF, rfl, by rw [if_neg hz]; simp [Nat.lt_irrefl]; omega⟩

/-! ## Stepping lemmas for `Codec.Decode` -/

/-- A header error is returned as-is. -/
theorem Decode_header_error {Msg : Type} (c : Codec Msg)
    (u : Msg → List Nat → Except Err Msg) {s s1 : List Nat} {z w : Nat}
    {e : Err} (h : DecodeHdr s = (z, w, some e, s1)) :
    c.Decode u s = (none, some e, s1) := by
  unfold Codec.Decode
  rw [h]

/-- After a successful header decode, decoding continues on the body with
the wrapped `size - HeaderSize`. -/
theorem Decode_header_ok {Msg : Type} (c : Codec Msg)
    (u : Msg → List Nat → Except Err Msg) {s s1 : List Nat} {size mt : Nat}
    (h : DecodeHdr s = (size, mt, none, s1)) :
    c.Decode u s =
      decodeBody c u ((size + (U32Mod - HeaderSize)) % U32Mod) mt s1 := by
  unfold Codec.Decode
  rw [h]

/-- A body-read error is returned as-is. -/
theorem decodeBody_read_error {Msg : Type} (c : Codec Msg)
    (u : Msg → List Nat → Except Err Msg) {size2 mt n : Nat}
    {s1 b s2 : List Nat} {e : Err}
    (h : readFull s1 size2 = (b, n, some e, s2)) :
    decodeBody c u size2 mt s1 = (none, some e, s2) := by
  unfold decodeBody
  rw [h]

/-- A full body read continues with type resolution. -/
theorem decodeBody_read_ok {Msg : Type} (c : Codec Msg)
    (u : Msg → List Nat → Except Err Msg) {size2 mt : Nat} {s1 b s2 : List Nat}
    (h : readFull s1 size2 = (b, size2, none, s2)) :
    decodeBody c u size2 mt s1 = decodeResolve c u mt b s2 := by
  unfold decodeBody
  rw [h]
  simp

/-- The (in practice unreachable) short-count branch after an error-free read. -/
theorem decodeBody_read_mismatch {Msg : Type} (c : Codec Msg)
    (u : Msg → List Nat → Except Err Msg) {size2 mt n : Nat}
    {s1 b s2 : List Nat} (h : readFull s1 size2 = (b, n, none, s2))
    (hn : n ≠ size2) :
    decodeBody c u size2 mt s1 = (none, some .shortRead, s2) := by
  unfold decodeBody
  rw [h]
  simp [hn]

/-- An unknown message type is returned as the registry's error. -/
theorem decodeResolve_unknown {Msg : Type} (c : Codec Msg)
    (u : Msg → List Nat → Except Err Msg) {mt : Nat} (b s2 : List Nat)
    {e : Err} (h : c.MT2M mt = .error e) :
    decodeResolve c u mt b s2 = (none, some e, s2) := by
  unfold decodeResolve
  rw [h]

/-- A failing `UnmarshalBinary` is returned as its error. -/
theorem decodeResolve_unmarshal_error {Msg : Type} (c : Codec Msg)
    (u : Msg → List Nat → Except Err Msg) {mt : Nat} (b s2 : List Nat)
    {m : Msg} {e : Err} (h1 : c.MT2M mt = .ok m) (h2 : u m b = .error e) :
    decodeResolve c u mt b s2 = (none, some e, s2) := by
  unfold decodeResolve
  rw [h1]
  dsimp only
  rw [h2]

/-- A successful resolve and unmarshal returns the populated message. -/
theorem decodeResolve_ok {Msg : Type} (c : Codec Msg)
    (u : Msg → List Nat → Except Err Msg) {mt : Nat} (b s2 : List Nat)
    {m m2 : Msg} (h1 : c.MT2M mt = .ok m) (h2 : u m b = .ok m2) :
    decodeResolve c u mt b s2 = (some m2, none, s2) := by
  unfold decodeResolve
  rw [h1]
  dsimp only
  rw [h2]

/-! ## Stepping lemmas for `Codec.Encode` -/

/-- After type resolution and marshalling succeed, `Encode` writes the
header and body. -/
theorem Encode_ok {Msg : Type} (c : Codec Msg)
    (marshal : Msg → Except Err (List Nat)) (wr : Writer) (m : Msg)
    (fuel : Nat) {mt : Nat} {b : List Nat}
    (h1 : c.M2MT m = .ok mt) (h2 : marshal m = .ok b) :
    c.Encode marshal wr m fuel =
      encodeWrites wr (putUint32LE ((b.length + HeaderSize) % U32Mod) ++ [mt % 256])
        b fuel := by
  unfold Codec.Encode
  rw [h1]
  dsimp only
  rw [h2]

/-- Against a writer that accepts everything, the write loop finishes in one
call (or zero calls for no data) and delivers the data verbatim. -/
theorem writeGo_fullWriter (data : List Nat) (k : Nat) (out : List Nat) :
    writeGo fullWriter data 2 k 0 out =
      some (none, if data.length = 0 then k else k + 1, out ++ data) := by
  cases data with
  | nil => simp [writeGo]
  | cons a t => simp [writeGo, fullWriter]

/-- Against a writer that accepts everything, `encodeWrites` delivers header
then body. -/
theorem encodeWrites_fullWriter (h b : List Nat) (hh : h.length ≠ 0) :
    encodeWrites fullWriter h b 2 =
      some (none, if b.length = 0 then 1 else 2, h ++ b) := by
  unfold encodeWrites
  rw [writeGo_fullWriter h 0 [], if_neg hh, List.nil_append]
  dsimp only
  rw [writeGo_fullWriter b 1 h]

/-- Once the buggy loop has re-assigned `written` to 1 with at least 2 bytes
pending, it never terminates: each call offers `b[1:]`, the one-byte writer
accepts a single byte, and `written` is assigned 1 again. -/
theorem oneByte_stuck (b : List Nat) (h2 : 2 ≤ b.length) :
    ∀ fuel k out, writeGo oneByteWriter b fuel k 1 out = none := by
  intro fuel
  induction fuel with
  | zero => intro k out; rfl
  | succ f ih =>
    intro k out
    have hlt : 1 < b.length := by omega
    have hmin : min 1 (b.drop 1).length = 1 := by
      have hd : (b.drop 1).length = b.length - 1 := by simp
      omega
    unfold writeGo
    rw [if_pos hlt]
    simp only [oneByteWriter, hmin]
    exact ih (k + 1) (out ++ (b.drop 1).take 1)

/-- The write loop never terminates against the one-byte writer when given
at least two bytes: after the first call `written` is 1 and stays 1. -/
theorem oneByte_from_start (b : List Nat) (h2 : 2 ≤ b.length) :
    ∀ fuel k out, writeGo oneByteWriter b fuel k 0 out = none := by
  intro fuel k out
  cases fuel with
  | zero => rfl
  | succ f =>
    have hlt : 0 < b.length := by omega
    have hmin : min 1 b.length = 1 := by omega
    have hstep : ∀ (i : Nat) (off : List Nat), oneByteWriter.step i off = (1, none) :=
      fun _ _ => rfl
    unfold writeGo
    rw [if_pos hlt]
    simp only [hstep, hmin, List.drop_zero]
    exact oneByte_stuck b h2 f (k + 1) (out ++ b.take 1)

/-! ## Claim theorems -/

/-- C1: the claim says that for every header with `total_size < 5` decode
fails with `InvalidFrame`, reads nothing further, and the subtraction
`total_size - 5` never wraps.  The code has no such guard: on the header
`00 00 00 00 01` (`total_size = 0`) the `size -= HeaderSize` subtraction
wraps to `4294967291`, decode attempts to read that many body bytes — it
consumes the three extra bytes of the second stream below — and fails with
an EOF-class error, not `InvalidFrame` (no such error exists in the code). -/
theorem decode_underflow_wraps_and_reads_on :
    (0 + (U32Mod - HeaderSize)) % U32Mod = 4294967291 ∧
    listCodec.Decode listUnmarshal [0, 0, 0, 0, 1] = (none, some .eof, []) ∧
    listCodec.Decode listUnmarshal [0, 0, 0, 0, 1, 9, 9, 9] =
      (none, some .unexpectedEOF, []) := by
  refine ⟨by norm_num [U32Mod, HeaderSize], rfl, rfl⟩

/-- C5: on any stream of at least 5 bytes, `DecodeHdr` returns the unsigned
32-bit little-endian value of bytes 0..3 as the size, byte 4 as the type,
no error, and consumes exactly 5 bytes (the remaining stream is `s.drop 5`). -/
theorem DecodeHdr_header_invariant (s : List Nat) (h5 : 5 ≤ s.length)
    (hb : ∀ x ∈ s, x < 256) :
    DecodeHdr s =
      (s.getD 0 0 + 256 * s.getD 1 0 + 65536 * s.getD 2 0 + 16777216 * s.getD 3 0,
        s.getD 4 0, none, s.drop 5) := by
  match s, h5 with
  | b0 :: b1 :: b2 :: b3 :: b4 :: rest, _ =>
    have e := @DecodeHdr_exact [b0, b1, b2, b3, b4] rest rfl
    rw [List.cons_append, List.cons_append, List.cons_append, List.cons_append,
      List.singleton_append] at e
    rw [e, leUint32_eval [b4]
      (hb b0 (by simp)) (hb b1 (by simp)) (hb b2 (by simp)) (hb b3 (by simp))]
    simp

/-- C5 witness: the header `09 00 00 00 01` followed by one body byte
decodes to size 9, type 1, no error, with exactly the body byte left. -/
theorem DecodeHdr_header_invariant_witness :
    DecodeHdr [9, 0, 0, 0, 1, 7] = (9, 1, none, [7]) := by
  have := DecodeHdr_header_invariant [9, 0, 0, 0, 1, 7] (by decide)
    (by decide)
  simpa using this

/-- The wrapped `size - HeaderSize` agrees with true subtraction when the
declared size is at least the header size. -/
theorem wrap_sub_eq {ts : Nat} (h5 : 5 ≤ ts) (hlt : ts < U32Mod) :
    (ts + (U32Mod - HeaderSize)) % U32Mod = ts - 5 := by
  unfold U32Mod HeaderSize at *
  omega

/-- C2: the claim says `Encode` delivers the whole frame even to a writer
that accepts arbitrarily small positive chunks.  The code's write loop
assigns `written = n` from the latest call instead of accumulating, so
against a writer accepting one byte per call the loop re-offers `b[1:]`
forever: for every fuel bound, encoding has not completed — the frame is
never delivered. -/
theorem encode_partial_writer_never_completes :
    ∀ fuel : Nat, listCodec.Encode listMarshal oneByteWriter [7] fuel = none := by
  intro fuel
  rw [Encode_ok listCodec listMarshal oneByteWriter [7] fuel rfl rfl]
  have hh : putUint32LE ((([7] : List Nat).length + HeaderSize) % U32Mod) ++
      [1 % 256] = [6, 0, 0, 0, 1] := rfl
  rw [hh]
  unfold encodeWrites
  rw [oneByte_from_start [6, 0, 0, 0, 1] (by decide) fuel 0 []]

/-- C3: the claim says the write loop terminates for every writer that
accepts at least one byte per call or errors.  It does not: with the two
bytes `[0, 1]` and the error-free one-byte-per-call writer, the loop runs
forever (`none` for every fuel bound), because `written` is assigned, not
advanced. -/
theorem write_loop_diverges_on_partial_writer :
    ∀ fuel : Nat, writeGo oneByteWriter [0, 1] fuel 0 0 [] = none :=
  fun fuel => oneByte_from_start [0, 1] (by decide) fuel 0 []

/-- C4: for every message recognized by the registry whose marshal and
unmarshal invert each other, decoding the encoded bytes returns the original
message, consuming the whole frame. -/
theorem decode_encode_roundtrip {Msg : Type} (c : Codec Msg)
    (marshal : Msg → Except Err (List Nat))
    (u : Msg → List Nat → Except Err Msg) (m m0 : Msg) (mt : Nat)
    (b : List Nat) (hm2mt : c.M2MT m = .ok mt) (hmt : mt < 256)
    (hmarshal : marshal m = .ok b) (hlen : b.length + 5 < U32Mod)
    (hmt2m : c.MT2M mt = .ok m0) (hun : u m0 b = .ok m) :
    ∃ k : Nat,
      c.Encode marshal fullWriter m 2 =
        some (none, k, (putUint32LE (b.length + HeaderSize) ++ [mt]) ++ b) ∧
      c.Decode u ((putUint32LE (b.length + HeaderSize) ++ [mt]) ++ b) =
        (some m, none, []) := by
  have hmod : (b.length + HeaderSize) % U32Mod = b.length + HeaderSize :=
    Nat.mod_eq_of_lt (by unfold HeaderSize at *; omega)
  have hmt256 : mt % 256 = mt := Nat.mod_eq_of_lt hmt
  refine ⟨if b.length = 0 then 1 else 2, ?_, ?_⟩
  · rw [Encode_ok c marshal fullWriter m 2 hm2mt hmarshal, hmod, hmt256,
      encodeWrites_fullWriter _ b (by simp [putUint32LE])]
  · have hdr := @DecodeHdr_exact (putUint32LE (b.length + HeaderSize) ++ [mt]) b
      (by simp [putUint32LE])
    have hgd : (putUint32LE (b.length + HeaderSize) ++ [mt]).getD 4 0 = mt := by
      simp [putUint32LE]
    have hle : leUint32 (putUint32LE (b.length + HeaderSize) ++ [mt]) =
        b.length + HeaderSize :=
      leUint32_putUint32LE (by unfold HeaderSize at *; omega) [mt]
    rw [hgd, hle] at hdr
    rw [Decode_header_ok c u hdr,
      wrap_sub_eq (by unfold HeaderSize; omega) (by unfold HeaderSize at *; omega)]
    have hsub : b.length + HeaderSize - 5 = b.length := by
      unfold HeaderSize
      omega
    rw [hsub]
    have hr : readFull b b.length = (b, b.length, none, []) := by
      unfold readFull
      rw [if_pos (le_refl _)]
      simp
    rw [decodeBody_read_ok c u hr, decodeResolve_ok c u b [] hmt2m hun]

/-- C4 witness: the one-byte message `[42]` of type 1 round-trips through
encode and decode. -/
theorem decode_encode_roundtrip_witness :
    ∃ k : Nat,
      listCodec.Encode listMarshal fullWriter [42] 2 =
        some (none, k,
          (putUint32LE (([42] : List Nat).length + HeaderSize) ++ [1]) ++ [42]) ∧
      listCodec.Decode listUnmarshal
          ((putUint32LE (([42] : List Nat).length + HeaderSize) ++ [1]) ++ [42]) =
        (some [42], none, []) :=
  decode_encode_roundtrip listCodec listMarshal listUnmarshal [42] [] 1 [42]
    rfl (by decide) rfl (by decide) rfl rfl

/-- C6: a stream with fewer than 5 bytes in total makes decode fail with a
short-read error; a valid header (`total_size ≥ 5`) followed by fewer than
`total_size - 5` body bytes also fails with a short-read error; in both
cases no message is returned. -/
theorem decode_short_stream {Msg : Type} (c : Codec Msg)
    (u : Msg → List Nat → Except Err Msg) :
    (∀ s : List Nat, s.length < 5 →
      ∃ e : Err, e.isShortRead = true ∧
        (c.Decode u s).1 = none ∧ (c.Decode u s).2.1 = some e) ∧
    (∀ (b0 b1 b2 b3 mt : Nat) (body : List Nat),
      b0 < 256 → b1 < 256 → b2 < 256 → b3 < 256 →
      5 ≤ leUint32 [b0, b1, b2, b3, mt] →
      body.length < leUint32 [b0, b1, b2, b3, mt] - 5 →
      ∃ e : Err, e.isShortRead = true ∧
        (c.Decode u ([b0, b1, b2, b3, mt] ++ body)).1 = none ∧
        (c.Decode u ([b0, b1, b2, b3, mt] ++ body)).2.1 = some e) := by
  constructor
  · intro s hs
    obtain ⟨e, he, hD⟩ := DecodeHdr_short hs
    exact ⟨e, he, by rw [Decode_header_error c u hD],
      by rw [Decode_header_error c u hD]⟩
  · intro b0 b1 b2 b3 mt body h0 h1 h2 h3 hge hlen
    have hdr := @DecodeHdr_exact [b0, b1, b2, b3, mt] body rfl
    rw [show ([b0, b1, b2, b3, mt] : List Nat).getD 4 0 = mt from rfl] at hdr
    have hts : leUint32 [b0, b1, b2, b3, mt] < U32Mod := by
      rw [leUint32_eval [mt] h0 h1 h2 h3]
      unfold U32Mod
      omega
    have hw := wrap_sub_eq hge hts
    by_cases hbz : body.length = 0
    · have hr : readFull body (leUint32 [b0, b1, b2, b3, mt] - 5) =
          ([], 0, some .eof, []) := by
        rw [readFull_short hlen, if_pos hbz]
      exact ⟨.eof, rfl,
        by rw [Decode_header_ok c u hdr, hw, decodeBody_read_error c u hr],
        by rw [Decode_header_ok c u hdr, hw, decodeBody_read_error c u hr]⟩
    · have hr : readFull body (leUint32 [b0, b1, b2, b3, mt] - 5) =
          (body, body.length, some .unexpectedEOF, []) := by
        rw [readFull_short hlen, if_neg hbz]
      exact ⟨.unexpectedEOF, rfl,
        by rw [Decode_header_ok c u hdr, hw, decodeBody_read_error c u hr],
        by rw [Decode_header_ok c u hdr, hw, decodeBody_read_error c u hr]⟩

/-- C6 witness: a 2-byte stream, and a 9-byte frame supplied with only one
of its four body bytes, both fail with a short-read error and no message. -/
theorem decode_short_stream_witness :
    (∃ e : Err, e.isShortRead = true ∧
      (listCodec.Decode listUnmarshal [1, 2]).1 = none ∧
      (listCodec.Decode listUnmarshal [1, 2]).2.1 = some e) ∧
    (∃ e : Err, e.isShortRead = true ∧
      (listCodec.Decode listUnmarshal ([9, 0, 0, 0, 1] ++ [7])).1 = none ∧
      (listCodec.Decode listUnmarshal ([9, 0, 0, 0, 1] ++ [7])).2.1 = some e) :=
  ⟨(decode_short_stream listCodec listUnmarshal).1 [1, 2] (by decide),
   (decode_short_stream listCodec listUnmarshal).2 9 0 0 0 1 [7]
     (by decide) (by decide) (by decide) (by decide) (by decide) (by decide)⟩

/-- C7: a well-formed frame whose type id the registry rejects makes decode
fail with the registry's `UnknownMessageType` error, after all
`total_size - 5` body bytes have been consumed, so the remaining stream is
exactly what follows the frame. -/
theorem decode_unknown_type_consumes_body {Msg : Type} (c : Codec Msg)
    (u : Msg → List Nat → Except Err Msg) (b0 b1 b2 b3 mt : Nat)
    (body rest : List Nat)
    (h0 : b0 < 256) (h1 : b1 < 256) (h2 : b2 < 256) (h3 : b3 < 256)
    (hge : 5 ≤ leUint32 [b0, b1, b2, b3, mt])
    (hlen : body.length = leUint32 [b0, b1, b2, b3, mt] - 5)
    (hmt : c.MT2M mt = .error .unknownMessageType) :
    c.Decode u ([b0, b1, b2, b3, mt] ++ (body ++ rest)) =
      (none, some .unknownMessageType, rest) := by
  have hdr := @DecodeHdr_exact [b0, b1, b2, b3, mt] (body ++ rest) rfl
  rw [show ([b0, b1, b2, b3, mt] : List Nat).getD 4 0 = mt from rfl] at hdr
  have hts : leUint32 [b0, b1, b2, b3, mt] < U32Mod := by
    rw [leUint32_eval [mt] h0 h1 h2 h3]
    unfold U32Mod
    omega
  have hr : readFull (body ++ rest) (leUint32 [b0, b1, b2, b3, mt] - 5) =
      (body, leUint32 [b0, b1, b2, b3, mt] - 5, none, rest) :=
    readFull_exact rest hlen
  rw [Decode_header_ok c u hdr, wrap_sub_eq hge hts,
    decodeBody_read_ok c u hr, decodeResolve_unknown c u body rest hmt]

/-- C7 witness: the frame `09 00 00 00 02` with body `[10, 20, 30, 40]` and
unknown type 2, followed by `[7]`, fails with `UnknownMessageType` and
leaves exactly `[7]` unread. -/
theorem decode_unknown_type_consumes_body_witness :
    listCodec.Decode listUnmarshal ([9, 0, 0, 0, 2] ++ ([10, 20, 30, 40] ++ [7])) =
      (none, some .unknownMessageType, [7]) :=
  decode_unknown_type_consumes_body listCodec listUnmarshal 9 0 0 0 2
    [10, 20, 30, 40] [7] (by decide) (by decide) (by decide) (by decide)
    (by decide) (by decide) rfl

/-- C8: encoding a message with an empty body and type 1 produces exactly
the bytes `05 00 00 00 01`; decoding those 5 bytes with nothing following
succeeds and yields the message built by unmarshalling the type-1 instance
from the empty body. -/
theorem encode_decode_empty_frame {Msg : Type} (c : Codec Msg)
    (marshal : Msg → Except Err (List Nat))
    (u : Msg → List Nat → Except Err Msg) (m m0 m1 : Msg)
    (hm2mt : c.M2MT m = .ok 1) (hmarshal : marshal m = .ok [])
    (hmt2m : c.MT2M 1 = .ok m0) (hun : u m0 [] = .ok m1) :
    c.Encode marshal fullWriter m 2 = some (none, 1, [5, 0, 0, 0, 1]) ∧
    c.Decode u [5, 0, 0, 0, 1] = (some m1, none, []) := by
  constructor
  · rw [Encode_ok c marshal fullWriter m 2 hm2mt hmarshal]
    rfl
  · have hdr : DecodeHdr [5, 0, 0, 0, 1] = (5, 1, none, []) := rfl
    have hw : ((5 : Nat) + (U32Mod - HeaderSize)) % U32Mod = 0 := by
      unfold U32Mod HeaderSize
      omega
    have hr : readFull [] 0 = ([], 0, none, []) := rfl
    rw [Decode_header_ok c u hdr, hw, decodeBody_read_ok c u hr,
      decodeResolve_ok c u [] [] hmt2m hun]

/-- C8 witness: with the witness registry, the empty message encodes to
`05 00 00 00 01` and those bytes decode back to the empty message. -/
theorem encode_decode_empty_frame_witness :
    listCodec.Encode listMarshal fullWriter [] 2 =
      some (none, 1, [5, 0, 0, 0, 1]) ∧
    listCodec.Decode listUnmarshal [5, 0, 0, 0, 1] = (some [], none, []) :=
  encode_decode_empty_frame listCodec listMarshal listUnmarshal [] [] []
    rfl rfl rfl rfl

/-- C9: decode is all-or-nothing — for every codec, unmarshaller and stream,
the returned message is present if and only if the returned error is absent. -/
theorem decode_all_or_nothing {Msg : Type} (c : Codec Msg)
    (u : Msg → List Nat → Except Err Msg) (s : List Nat) :
    ((c.Decode u s).1.isSome = true) ↔ (c.Decode u s).2.1 = none := by
  rcases hH : DecodeHdr s with ⟨size, mtv, err, s1⟩
  cases err with
  | some e => rw [Decode_header_error c u hH]; simp
  | none =>
    rw [Decode_header_ok c u hH]
    rcases hB : readFull s1 ((size + (U32Mod - HeaderSize)) % U32Mod)
      with ⟨b, n, err2, s2⟩
    cases err2 with
    | some e => rw [decodeBody_read_error c u hB]; simp
    | none =>
      by_cases hn : n = (size + (U32Mod - HeaderSize)) % U32Mod
      · rw [hn] at hB
        rw [decodeBody_read_ok c u hB]
        cases hM : c.MT2M mtv with
        | error e => rw [decodeResolve_unknown c u b s2 hM]; simp
        | ok m =>
          cases hU : u m b with
          | error e => rw [decodeResolve_unmarshal_error c u b s2 hM hU]; simp
          | ok m2 => rw [decodeResolve_ok c u b s2 hM hU]; simp
      · rw [decodeBody_read_mismatch c u hB hn]; simp

/-- C10: if type resolution or body marshalling fails, `Encode` returns that
error with zero bytes delivered to the writer, for every writer and fuel. -/
theorem encode_failure_writes_nothing {Msg : Type} (c : Codec Msg)
    (marshal : Msg → Except Err (List Nat)) (wr : Writer) (m : Msg)
    (fuel : Nat) :
    (∀ e : Err, c.M2MT m = .error e →
      c.Encode marshal wr m fuel = some (some e, 0, [])) ∧
    (∀ (mt : Nat) (e : Err), c.M2MT m = .ok mt → marshal m = .error e →
      c.Encode marshal wr m fuel = some (some e, 0, [])) := by
  constructor
  · intro e he
    unfold Codec.Encode
    rw [he]
  · intro mt e h1 h2
    unfold Codec.Encode
    rw [h1, h2]

/-- C10 witness: a registry that rejects the message, and a marshaller that
fails, each make `Encode` return the error with an untouched writer. -/
theorem encode_failure_writes_nothing_witness :
    rejectCodec.Encode listMarshal oneByteWriter [7] 3 =
      some (some .unknownMessageType, 0, []) ∧
    listCodec.Encode failMarshal oneByteWriter [7] 3 =
      some (some .decodeError, 0, []) :=
  ⟨(encode_failure_writes_nothing rejectCodec listMarshal oneByteWriter [7] 3).1
      .unknownMessageType rfl,
   (encode_failure_writes_nothing listCodec failMarshal oneByteWriter [7] 3).2
      1 .decodeError rfl rfl⟩

end Qp
